import Mathlib

/-!
Shallow embedding of the store-terminal cart core: quantity coalescing
(src/product/fut.rs), promotion containment and consumption
(src/promotion/mod.rs, src/product/extra.rs), optimizer candidates
(src/cart/optimizer_candidate.rs) and the optimizer search loop
(src/cart/optimizer.rs, src/database/mod.rs).

Rust f64 prices and amounts are modelled as rationals; machine-float
rounding plays no role in any of the verified properties.  Fallible Rust
methods returning Result are modelled with Except.  The recursive
optimizer search, which the source expresses as unbounded recursion, is
modelled with an explicit fuel parameter: a result of none means the
search did not terminate within the given fuel.
-/

namespace StoreTerminal

/-- Error kinds of the source (src/lib.rs ErrorVariant); only the two
consumption errors matter for the verified core. -/
inductive ErrorVariant where
  | ProductNotFound
  | NotEnoughItems
  | PromotionNotFound
  | ArcUnlockError
  | JsonParseError
deriving DecidableEq, Repr

/-- Product identity: a code and a unit price (src/product/mod.rs).
The Rust PartialEq compares solely by code; we keep full structural
equality in Lean and compare codes explicitly where the source does. -/
structure Product where
  code : String
  price : ℚ
deriving DecidableEq, Repr

/-- Quantity entry: a product together with an amount
(src/product/extra.rs ProductAmount). -/
structure ProductAmount where
  product : Product
  amount : ℚ
deriving DecidableEq, Repr

/-- Code of the underlying product (ProductAmount::get_code). -/
def ProductAmount.code (pa : ProductAmount) : String :=
  pa.product.code

/-- Unit price of the underlying product (ProductAmount::get_price). -/
def ProductAmount.price (pa : ProductAmount) : ℚ :=
  pa.product.price

/-- Total price of the entry: unit price times amount
(ProductAmount::get_total_price). -/
def ProductAmount.get_total_price (pa : ProductAmount) : ℚ :=
  pa.price * pa.amount

/-- ProductAmount::dec_amount: fails with NotEnoughItems when the
subtracted amount exceeds the current amount, otherwise subtracts. -/
def ProductAmount.dec_amount (pa : ProductAmount) (amount : ℚ) :
    Except ErrorVariant ProductAmount :=
  if pa.amount < amount then .error .NotEnoughItems
  else .ok { pa with amount := pa.amount - amount }

/-- Product::generate_amount. -/
def Product.generate_amount (p : Product) (amount : ℚ) : ProductAmount :=
  ⟨p, amount⟩

/-! ## Quantity coalescer (src/product/fut.rs ProductAmountGroupFuture)

The Rust future pops items off the END of its queue and, for each, scans
the result accumulated so far for the first entry whose product compares
equal (equality is by code only); on a hit it increments that entry in
place (keeping the entry already in the result, hence its captured
price), otherwise it appends the item at the end of the result. -/

/-- One scan of the loop body on a hit: add the amount of the incoming
item to the first result entry with the same code, keeping that entry
(and thus its captured price instance); none when no entry matches. -/
def addToFirstMatch (item : ProductAmount) :
    List ProductAmount → Option (List ProductAmount)
  | [] => none
  | e :: rest =>
    if e.code = item.code then
      some ({ e with amount := e.amount + item.amount } :: rest)
    else
      (addToFirstMatch item rest).map (fun r => e :: r)

/-- One iteration of the while-let loop of poll. -/
def groupStep (res : List ProductAmount) (item : ProductAmount) :
    List ProductAmount :=
  match addToFirstMatch item res with
  | some res2 => res2
  | none => res ++ [item]

/-- The while-let loop of poll: consume the processing queue item by
item into the accumulated result. -/
def groupGo : List ProductAmount → List ProductAmount → List ProductAmount
  | [], res => res
  | item :: rest, res => groupGo rest (groupStep res item)

/-- ProductAmountGroupFuture::poll on a queue: Vec::pop takes the last
element first, so the processing order is the reverse of the input. -/
def coalesce (queue : List ProductAmount) : List ProductAmount :=
  groupGo queue.reverse []

/-! ## Promotions (src/promotion/mod.rs) -/

/-- Promotion: a code, required quantity entries and a flat price. -/
structure Promotion where
  code : String
  products : List ProductAmount
  price : ℚ
deriving DecidableEq, Repr

/-- Promotion::new coalesces the declared requirements; coalescing never
fails, so the Rust Result is always Ok. -/
def Promotion.new (code : String) (products : List ProductAmount)
    (price : ℚ) : Promotion :=
  ⟨code, coalesce products, price⟩

/-- First entry of the pool whose product code matches; this is the scan
performed both by the inner loop of is_contained_by and by
ProductAmount::get_index_of_product. -/
def firstMatch : List ProductAmount → String → Option ProductAmount
  | [], _ => none
  | e :: rest, c => if e.code = c then some e else firstMatch rest c

/-- Promotion::is_contained_by: fold over the requirements; once false,
stays false; otherwise the first pool entry with the matching code
decides the requirement, and absence of a match decides it negatively. -/
def Promotion.is_contained_by (promo : Promotion)
    (pool : List ProductAmount) : Bool :=
  promo.products.foldl
    (fun is_contained r =>
      if is_contained = false then false
      else
        match firstMatch pool r.code with
        | some e => decide (r.amount ≤ e.amount)
        | none => false)
    true

/-- Locate the first matching entry and apply dec_amount to it in place;
error ProductNotFound when no entry matches.  This combines
ProductAmount::get_index_of_product (first index with the code) with the
indexed dec_amount call of consume_items. -/
def decFirst (req : ProductAmount) :
    List ProductAmount → Except ErrorVariant (List ProductAmount)
  | [] => .error .ProductNotFound
  | e :: rest =>
    if e.code = req.code then
      match e.dec_amount req.amount with
      | .error err => .error err
      | .ok e2 => .ok (e2 :: rest)
    else
      match decFirst req rest with
      | .error err => .error err
      | .ok rest2 => .ok (e :: rest2)

/-- The for-loop of Promotion::consume_items over the requirements. -/
def consumeItemsLoop : List ProductAmount → List ProductAmount →
    Except ErrorVariant (List ProductAmount)
  | [], pool => .ok pool
  | r :: rs, pool =>
    match decFirst r pool with
    | .error err => .error err
    | .ok pool2 => consumeItemsLoop rs pool2

/-- Promotion::consume_items: apply every requirement to a copy of the
pool, then keep only the entries whose amount is strictly positive. -/
def Promotion.consume_items (promo : Promotion)
    (products : List ProductAmount) :
    Except ErrorVariant (List ProductAmount) :=
  match consumeItemsLoop promo.products products with
  | .error err => .error err
  | .ok pool => .ok (pool.filter (fun p => decide (0 < p.amount)))

/-! ## Optimizer candidate (src/cart/optimizer_candidate.rs) -/

/-- Derived total price of a candidate: sum of the promotion prices plus
sum of the total prices of the remaining entries
(OptimizerCandidate::set_price). -/
def candidatePrice (promotions : List Promotion)
    (products : List ProductAmount) : ℚ :=
  (promotions.map Promotion.price).sum
    + (products.map ProductAmount.get_total_price).sum

/-- Optimizer candidate: chosen promotions, remaining entries and the
derived price. -/
structure OptimizerCandidate where
  price : ℚ
  promotions : List Promotion
  products : List ProductAmount
deriving DecidableEq, Repr

/-- OptimizerCandidate::new followed by set_price: the constructor is
the only place the price is computed. -/
def OptimizerCandidate.new (promotions : List Promotion)
    (products : List ProductAmount) : OptimizerCandidate :=
  ⟨candidatePrice promotions products, promotions, products⟩

/-- OptimizerCandidate::simulate_promotion: consume the promotion from
the remaining products (propagating any failure), append it to the
chosen promotions and build a fresh candidate. -/
def OptimizerCandidate.simulate_promotion (c : OptimizerCandidate)
    (promotion : Promotion) : Except ErrorVariant OptimizerCandidate :=
  match promotion.consume_items c.products with
  | .error err => .error err
  | .ok products =>
    .ok (OptimizerCandidate.new (c.promotions ++ [promotion]) products)

/-! ## Optimizer search (src/cart/optimizer.rs, src/database/mod.rs)

The promotion store is a HashMap whose values() iteration order is
unspecified; we model it as a list of promotions in one fixed iteration
order.  Lock poisoning (ArcUnlockError) is the only failure of the
store and is outside this pure model, so the fetch below is total. -/

/-- Database::fetch_possible_promotions_with_maximum_price: all stored
promotions whose flat price is strictly below the cap and whose
requirements are contained by the given products. -/
def fetchPossible (db : List Promotion) (products : List ProductAmount)
    (maximumPrice : ℚ) : List Promotion :=
  db.filter
    (fun p => decide (p.price < maximumPrice) && p.is_contained_by products)

/-- The for-loop of one round of get_optimal_products_promotions: each
possible promotion is simulated against the accumulating best candidate;
a simulation error leaves the best unchanged, a successful simulation is
adopted exactly when its price is strictly lower. -/
def runRound (possible : List Promotion) (cand : OptimizerCandidate) :
    OptimizerCandidate :=
  possible.foldl
    (fun c p =>
      match c.simulate_promotion p with
      | .ok c2 => if c2.price < c.price then c2 else c
      | .error _ => c)
    cand

/-- Optimizer::get_optimal_products_promotions with explicit fuel: fetch
the promotions cheaper than the current best that are contained by its
remaining products; if none, return the best candidate, otherwise run
the round and recurse.  none models a search that has not terminated
within the fuel. -/
def optLoop : Nat → List Promotion → OptimizerCandidate →
    Option (Except ErrorVariant (List ProductAmount × List Promotion))
  | 0, _, _ => none
  | fuel + 1, db, cand =>
    let possible := fetchPossible db cand.products cand.price
    if possible = [] then
      some (.ok (cand.products, cand.promotions))
    else
      optLoop fuel db (runRound possible cand)

/-- Optimizer::new plus get_optimal_products_promotions: the initial
candidate has no promotions and the whole coalesced pool. -/
def optimizerRun (fuel : Nat) (db : List Promotion)
    (pool : List ProductAmount) :
    Option (Except ErrorVariant (List ProductAmount × List Promotion)) :=
  optLoop fuel db (OptimizerCandidate.new [] pool)

/-! ## Specification-side helper definitions

These do not embed source code; they express the quantities the claims
talk about (per-code sums and counts, the entry that survives grouping,
the pool with all requirements subtracted, the derived-price invariant),
to be compared with the functions embedded above. -/

/-- Sum of the amounts carried by the entries with the given code. -/
def sumFor (c : String) (l : List ProductAmount) : ℚ :=
  (l.map (fun e => if e.code = c then e.amount else 0)).sum

/-- Number of entries with the given code. -/
def countFor (c : String) (l : List ProductAmount) : Nat :=
  (l.filter (fun e => decide (e.code = c))).length

/-- The entries of the list carry pairwise distinct product codes; this
is what the coalescer guarantees about its output. -/
def nodupCodes (l : List ProductAmount) : Prop :=
  (l.map ProductAmount.code).Nodup

/-- First-some choice on options. -/
def orO : Option α → Option α → Option α
  | some a, _ => some a
  | none, b => b

/-- The product instance (code and captured price) of the first entry of
the list with the given code. -/
def survivingProduct (l : List ProductAmount) (c : String) :
    Option Product :=
  (firstMatch l c).map ProductAmount.product

/-- Subtract an amount from the first entry with the given code, leaving
every other entry unchanged; the pure effect of a successful decFirst. -/
def subFirst : List ProductAmount → String → ℚ → List ProductAmount
  | [], _, _ => []
  | e :: rest, c, a =>
    if e.code = c then { e with amount := e.amount - a } :: rest
    else e :: subFirst rest c a

/-- Subtract every requirement from its matching entry: the pool the
claim says a successful consume starts from before dropping zeros. -/
def subAll (reqs : List ProductAmount) (pool : List ProductAmount) :
    List ProductAmount :=
  reqs.foldl (fun p r => subFirst p r.code r.amount) pool

/-- Derived-price invariant of a candidate (claim C5): the stored price
equals the sum of the promotion prices plus the sum of the remaining
entries total prices. -/
def OptimizerCandidate.priceInvariant (c : OptimizerCandidate) : Prop :=
  c.price = (c.promotions.map Promotion.price).sum
    + (c.products.map ProductAmount.get_total_price).sum

/-! ## Concrete instances used by the claims

The literal catalog of the optimizer doctest (src/cart/optimizer.rs) and
the smaller fixtures of the other claims. -/

def prodA : Product := ⟨"A", 2⟩

def prodB : Product := ⟨"B", 12⟩

def prodC : Product := ⟨"C", 1.25⟩

def prodD : Product := ⟨"D", 0.15⟩

/-- Promotion PA: four units of A for a flat 7.0. -/
def promoPA : Promotion := Promotion.new "PA" [prodA.generate_amount 4] 7

/-- Promotion PC: six units of C for a flat 6.0. -/
def promoPC : Promotion := Promotion.new "PC" [prodC.generate_amount 6] 6

/-- The promotion store of the doctest, in one iteration order. -/
def exampleDb : List Promotion := [promoPA, promoPC]

/-- Coalesced cart pool of the first doctest: A:4, B:2, C:1, D:1. -/
def examplePool : List ProductAmount :=
  [prodA.generate_amount 4, prodB.generate_amount 2,
   prodC.generate_amount 1, prodD.generate_amount 1]

/-- The remainder the optimizer must leave: B:2, C:1, D:1. -/
def exampleRemaining : List ProductAmount :=
  [prodB.generate_amount 2, prodC.generate_amount 1,
   prodD.generate_amount 1]

/-- Pool of the no-applicable-promotion doctest: one of each product. -/
def examplePoolSmall : List ProductAmount :=
  [prodA.generate_amount 1, prodB.generate_amount 1,
   prodC.generate_amount 1, prodD.generate_amount 1]

/-- Promotion requiring A:4, for the consumption fixtures. -/
def promoA4 : Promotion := Promotion.new "P4" [prodA.generate_amount 4] 1

def promoA5 : Promotion := Promotion.new "P5" [prodA.generate_amount 5] 1

def promoA6 : Promotion := Promotion.new "P6" [prodA.generate_amount 6] 1

def promoA1 : Promotion := Promotion.new "P1" [prodA.generate_amount 1] 1

/-- Pool holding five units of A. -/
def poolA5 : List ProductAmount := [prodA.generate_amount 5]

/-- Pool with a duplicated code, as a flattened cart before coalescing
can produce: two entries for A of amounts 1 and 5. -/
def dupPool : List ProductAmount :=
  [prodA.generate_amount 1, prodA.generate_amount 5]

/-- Pool containing an untouched zero-amount entry next to A:2. -/
def zeroPool : List ProductAmount :=
  [prodA.generate_amount 2, Product.generate_amount ⟨"E", 1⟩ 0]

/-- Non-terminating fixture (claim C6): product A at unit price 1. -/
def loopProduct : Product := ⟨"A", 1⟩

/-- A promotion that is always cheap enough to pass the price-cap filter
on the pool below, yet never lowers the candidate price: one unit of A
(worth 1.0) for a flat 1.5. -/
def loopPromo : Promotion :=
  Promotion.new "P" [loopProduct.generate_amount 1] 1.5

def loopDb : List Promotion := [loopPromo]

/-- Initial candidate over the pool A:2, of derived price 2. -/
def loopCand : OptimizerCandidate :=
  OptimizerCandidate.new [] [loopProduct.generate_amount 2]

/-- A promotion whose requirement list repeats a code.  Promotion::new
coalesces requirements, but TerminalEntityInterface::from_json
deserializes the products field verbatim, so such a promotion can enter
the store (src/promotion/mod.rs, from_json). -/
def dupPromo : Promotion :=
  ⟨"PB", [prodA.generate_amount 3, prodA.generate_amount 3], 1⟩

/-- A promotion that genuinely improves the pool A:4: all of it for 5. -/
def goodPromo : Promotion := Promotion.new "PG" [prodA.generate_amount 4] 5

def dropDb : List Promotion := [dupPromo, goodPromo]

/-- Initial candidate over the pool A:4, of derived price 8. -/
def dropCand : OptimizerCandidate :=
  OptimizerCandidate.new [] [prodA.generate_amount 4]

/-- Two instances of the same code Foo captured at different prices. -/
def fooCheap : Product := ⟨"Foo", 1⟩

def fooDear : Product := ⟨"Foo", 2⟩

/-- Input whose first entry carries price 1 and last entry price 2. -/
def mixedPrices : List ProductAmount :=
  [fooCheap.generate_amount 1, fooDear.generate_amount 1]

/-! ## Basic structure lemmas -/

theorem ProductAmount.code_def (pa : ProductAmount) :
    pa.code = pa.product.code := rfl

theorem ProductAmount.price_def (pa : ProductAmount) :
    pa.price = pa.product.price := rfl

theorem nodupCodes_cons (e : ProductAmount) (l : List ProductAmount)
    (h : nodupCodes (e :: l)) :
    (∀ e2 ∈ l, e2.code ≠ e.code) ∧ nodupCodes l := by
  rw [nodupCodes, List.map_cons, List.nodup_cons] at h
  refine ⟨?_, h.2⟩
  intro e2 he2 hcc
  exact h.1 (hcc ▸ List.mem_map_of_mem ProductAmount.code he2)

@[simp]
theorem orO_none_right (x : Option α) : orO x none = x := by
  cases x <;> rfl

@[simp]
theorem orO_none_left (x : Option α) : orO none x = x := rfl

@[simp]
theorem orO_some_left (a : α) (x : Option α) : orO (some a) x = some a := rfl

theorem orO_assoc (x y z : Option α) :
    orO (orO x y) z = orO x (orO y z) := by
  cases x <;> cases y <;> rfl

@[simp]
theorem sumFor_nil (c : String) : sumFor c [] = 0 := rfl

theorem sumFor_cons (c : String) (e : ProductAmount)
    (l : List ProductAmount) :
    sumFor c (e :: l) = (if e.code = c then e.amount else 0) + sumFor c l := by
  simp [sumFor]

theorem sumFor_append (c : String) (l1 l2 : List ProductAmount) :
    sumFor c (l1 ++ l2) = sumFor c l1 + sumFor c l2 := by
  simp [sumFor]

theorem sumFor_reverse (c : String) (l : List ProductAmount) :
    sumFor c l.reverse = sumFor c l := by
  simp [sumFor, List.map_reverse, List.sum_reverse]

theorem firstMatch_eq_none_iff (l : List ProductAmount) (c : String) :
    firstMatch l c = none ↔ ∀ e ∈ l, e.code ≠ c := by
  induction l with
  | nil => simp [firstMatch]
  | cons e rest ih =>
    by_cases h : e.code = c
    · simp [firstMatch, h]
    · simp [firstMatch, h, ih]

theorem firstMatch_some (l : List ProductAmount) (c : String)
    (e : ProductAmount) (h : firstMatch l c = some e) :
    e ∈ l ∧ e.code = c := by
  induction l with
  | nil => simp [firstMatch] at h
  | cons e2 rest ih =>
    by_cases hc : e2.code = c
    · simp [firstMatch, hc] at h
      exact ⟨by simp [← h], h ▸ hc⟩
    · simp [firstMatch, hc] at h
      rcases ih h with ⟨h1, h2⟩
      exact ⟨List.mem_cons_of_mem _ h1, h2⟩

theorem firstMatch_of_mem_nodup (l : List ProductAmount) (c : String)
    (e : ProductAmount) (hnd : nodupCodes l) (he : e ∈ l)
    (hc : e.code = c) : firstMatch l c = some e := by
  induction l with
  | nil => simp at he
  | cons e2 rest ih =>
    rcases nodupCodes_cons e2 rest hnd with ⟨hnotin, hnd2⟩
    rcases List.mem_cons.mp he with h | h
    · subst h
      rw [firstMatch, if_pos hc]
    · have hne : ¬ e2.code = c := fun hcc =>
        hnotin e h (hc.trans hcc.symm)
      rw [firstMatch, if_neg hne]
      exact ih hnd2 h

theorem firstMatch_append (l1 l2 : List ProductAmount) (c : String) :
    firstMatch (l1 ++ l2) c = orO (firstMatch l1 c) (firstMatch l2 c) := by
  induction l1 with
  | nil => simp [firstMatch]
  | cons e rest ih =>
    by_cases h : e.code = c
    · simp [firstMatch, h]
    · simp [firstMatch, h, ih]

/-! ## Coalescer lemmas -/

theorem addToFirstMatch_none_iff (item : ProductAmount)
    (l : List ProductAmount) :
    addToFirstMatch item l = none ↔ ∀ e ∈ l, e.code ≠ item.code := by
  induction l with
  | nil => simp [addToFirstMatch]
  | cons e rest ih =>
    by_cases h : e.code = item.code
    · simp [addToFirstMatch, h]
    · simp [addToFirstMatch, h, Option.map_eq_none', ih]

theorem addToFirstMatch_sumFor (item : ProductAmount) (c : String) :
    ∀ {l l2 : List ProductAmount}, addToFirstMatch item l = some l2 →
    sumFor c l2 = sumFor c l + (if item.code = c then item.amount else 0) := by
  intro l
  induction l with
  | nil => intro l2 h; simp [addToFirstMatch] at h
  | cons e rest ih =>
    intro l2 h
    by_cases hc : e.code = item.code
    · rw [addToFirstMatch, if_pos hc] at h
      cases h
      rw [sumFor_cons, sumFor_cons]
      by_cases h2 : item.code = c
      · rw [if_pos (show (ProductAmount.mk e.product
            (e.amount + item.amount)).code = c from hc.trans h2),
          if_pos (hc.trans h2), if_pos h2]
        ring
      · have he : ¬ e.code = c := fun hh => h2 (hc ▸ hh)
        rw [if_neg (show ¬ (ProductAmount.mk e.product
            (e.amount + item.amount)).code = c from he),
          if_neg he, if_neg h2]
        ring
    · rw [addToFirstMatch, if_neg hc] at h
      cases hr : addToFirstMatch item rest with
      | none => rw [hr] at h; simp at h
      | some rest2 =>
        rw [hr] at h
        simp only [Option.map_some'] at h
        cases h
        rw [sumFor_cons, sumFor_cons, ih hr]
        ring

theorem addToFirstMatch_codes (item : ProductAmount) :
    ∀ {l l2 : List ProductAmount}, addToFirstMatch item l = some l2 →
    l2.map ProductAmount.code = l.map ProductAmount.code := by
  intro l
  induction l with
  | nil => intro l2 h; simp [addToFirstMatch] at h
  | cons e rest ih =>
    intro l2 h
    by_cases hc : e.code = item.code
    · rw [addToFirstMatch, if_pos hc] at h
      cases h
      simp [ProductAmount.code]
    · rw [addToFirstMatch, if_neg hc] at h
      cases hr : addToFirstMatch item rest with
      | none => rw [hr] at h; simp at h
      | some rest2 =>
        rw [hr] at h
        simp only [Option.map_some'] at h
        cases h
        simp [ih hr]

theorem addToFirstMatch_surviving (item : ProductAmount) (c : String) :
    ∀ {l l2 : List ProductAmount}, addToFirstMatch item l = some l2 →
    survivingProduct l2 c = survivingProduct l c := by
  intro l
  induction l with
  | nil => intro l2 h; simp [addToFirstMatch] at h
  | cons e rest ih =>
    intro l2 h
    by_cases hc : e.code = item.code
    · rw [addToFirstMatch, if_pos hc] at h
      cases h
      by_cases h2 : e.code = c
      · rw [survivingProduct, survivingProduct, firstMatch, firstMatch,
          if_pos (show (ProductAmount.mk e.product
            (e.amount + item.amount)).code = c from h2), if_pos h2]
        rfl
      · rw [survivingProduct, survivingProduct, firstMatch, firstMatch,
          if_neg (show ¬ (ProductAmount.mk e.product
            (e.amount + item.amount)).code = c from h2), if_neg h2]
    · rw [addToFirstMatch, if_neg hc] at h
      cases hr : addToFirstMatch item rest with
      | none => rw [hr] at h; simp at h
      | some rest2 =>
        rw [hr] at h
        simp only [Option.map_some'] at h
        cases h
        by_cases h2 : e.code = c
        · rw [survivingProduct, survivingProduct, firstMatch, firstMatch,
            if_pos h2, if_pos h2]
        · rw [survivingProduct, survivingProduct, firstMatch, firstMatch,
            if_neg h2, if_neg h2]
          exact ih hr

theorem addToFirstMatch_isSome (item : ProductAmount)
    {l l2 : List ProductAmount} (h : addToFirstMatch item l = some l2) :
    (firstMatch l item.code).isSome := by
  cases hm : firstMatch l item.code with
  | some e => rfl
  | none =>
    have := (firstMatch_eq_none_iff l item.code).mp hm
    rw [(addToFirstMatch_none_iff item l).mpr this] at h
    cases h

theorem groupStep_sumFor (res : List ProductAmount)
    (item : ProductAmount) (c : String) :
    sumFor c (groupStep res item)
      = sumFor c res + (if item.code = c then item.amount else 0) := by
  unfold groupStep
  cases h : addToFirstMatch item res with
  | some res2 => exact addToFirstMatch_sumFor item c h
  | none => simp [sumFor_append, sumFor_cons]

theorem groupGo_sumFor (c : String) :
    ∀ (q res : List ProductAmount),
    sumFor c (groupGo q res) = sumFor c res + sumFor c q := by
  intro q
  induction q with
  | nil => intro res; simp [groupGo]
  | cons item rest ih =>
    intro res
    rw [groupGo, ih, groupStep_sumFor, sumFor_cons]
    ring

theorem coalesce_sumFor (x : List ProductAmount) (c : String) :
    sumFor c (coalesce x) = sumFor c x := by
  unfold coalesce
  rw [groupGo_sumFor]
  simp [sumFor_reverse]

theorem groupStep_nodup (res : List ProductAmount) (item : ProductAmount)
    (h : nodupCodes res) : nodupCodes (groupStep res item) := by
  unfold groupStep
  cases haf : addToFirstMatch item res with
  | some res2 =>
    unfold nodupCodes
    rw [addToFirstMatch_codes item haf]
    exact h
  | none =>
    have hall := (addToFirstMatch_none_iff item res).mp haf
    unfold nodupCodes
    rw [List.map_append]
    refine List.Nodup.append h (List.nodup_singleton _) ?_
    intro a ha hb
    simp only [List.map_cons, List.map_nil, List.mem_singleton] at hb
    rcases List.mem_map.mp ha with ⟨e, he, rfl⟩
    exact hall e he hb

theorem groupGo_nodup :
    ∀ (q res : List ProductAmount), nodupCodes res →
    nodupCodes (groupGo q res) := by
  intro q
  induction q with
  | nil => intro res h; exact h
  | cons item rest ih =>
    intro res h
    exact ih _ (groupStep_nodup res item h)

theorem coalesce_nodupCodes (x : List ProductAmount) :
    nodupCodes (coalesce x) :=
  groupGo_nodup _ _ (by simp [nodupCodes])

theorem countFor_le_one_of_nodup (c : String) :
    ∀ (l : List ProductAmount), nodupCodes l → countFor c l ≤ 1 := by
  intro l
  induction l with
  | nil => intro _; simp [countFor]
  | cons e rest ih =>
    intro h
    rcases nodupCodes_cons e rest h with ⟨hnotin, hnd⟩
    by_cases hc : e.code = c
    · have hrest : rest.filter (fun e2 => decide (e2.code = c)) = [] := by
        rw [List.filter_eq_nil_iff]
        intro a ha hdec
        exact hnotin a ha ((of_decide_eq_true hdec).trans hc.symm)
      simp [countFor, List.filter, hc, hrest]
    · have hcc : countFor c (e :: rest) = countFor c rest := by
        simp [countFor, List.filter, hc]
      rw [hcc]
      exact ih hnd

theorem groupGo_of_disjoint :
    ∀ (q res : List ProductAmount), nodupCodes q →
    (∀ e ∈ q, ∀ e2 ∈ res, e2.code ≠ e.code) →
    groupGo q res = res ++ q := by
  intro q
  induction q with
  | nil => intro res _ _; simp [groupGo]
  | cons item rest ih =>
    intro res hq hdisj
    rcases nodupCodes_cons item rest hq with ⟨hnotin, hnd⟩
    have hnone : addToFirstMatch item res = none :=
      (addToFirstMatch_none_iff item res).mpr
        (fun e he => hdisj item (List.mem_cons_self _ _) e he)
    have hstep : groupStep res item = res ++ [item] := by
      simp [groupStep, hnone]
    rw [groupGo, hstep, ih (res ++ [item]) hnd ?_]
    · simp
    · intro e he e2 he2
      rcases List.mem_append.mp he2 with h2 | h2
      · exact hdisj e (List.mem_cons_of_mem _ he) e2 h2
      · rcases List.mem_singleton.mp h2 with rfl
        exact fun hcc => hnotin e he hcc.symm

theorem coalesce_eq_reverse_of_nodup (y : List ProductAmount)
    (h : nodupCodes y) : coalesce y = y.reverse := by
  unfold coalesce
  rw [groupGo_of_disjoint y.reverse []
    (by simpa [nodupCodes, List.map_reverse] using h)
    (by intro e _ e2 he2; simp at he2)]
  simp

theorem groupStep_surviving (res : List ProductAmount)
    (item : ProductAmount) (c : String) :
    survivingProduct (groupStep res item) c
      = orO (survivingProduct res c)
          (if item.code = c then some item.product else none) := by
  unfold groupStep
  cases h : addToFirstMatch item res with
  | some res2 =>
    rw [addToFirstMatch_surviving item c h]
    by_cases hc : item.code = c
    · have hs := addToFirstMatch_isSome item h
      rw [hc] at hs
      rcases Option.isSome_iff_exists.mp hs with ⟨e, hfm⟩
      simp [survivingProduct, hfm, hc]
    · simp [hc]
  | none =>
    rw [survivingProduct, firstMatch_append]
    by_cases hc : item.code = c <;>
      cases hf : firstMatch res c <;>
        simp [survivingProduct, firstMatch, hc, hf]

theorem groupGo_surviving (c : String) :
    ∀ (q res : List ProductAmount),
    survivingProduct (groupGo q res) c
      = orO (survivingProduct res c) (survivingProduct q c) := by
  intro q
  induction q with
  | nil => intro res; simp [groupGo, survivingProduct, firstMatch]
  | cons item rest ih =>
    intro res
    rw [groupGo, ih, groupStep_surviving, orO_assoc]
    congr 1
    by_cases hc : item.code = c <;>
      simp [survivingProduct, firstMatch, hc]

/-- Claim C4: coalescing conservation.  For every input sequence of
quantity entries and every product code occurring in it, the output of
the coalescer contains at most one entry for that code and its amount
equals the sum of all amounts for that code across the input. -/
theorem coalesce_conservation (x : List ProductAmount) (c : String)
    (hc : c ∈ x.map ProductAmount.code) :
    countFor c (coalesce x) ≤ 1 ∧ sumFor c (coalesce x) = sumFor c x :=
  ⟨countFor_le_one_of_nodup c (coalesce x) (coalesce_nodupCodes x),
   coalesce_sumFor x c⟩

/-- Witness for C4 at the two-entry Foo input. -/
theorem coalesce_conservation_witness :
    "Foo" ∈ mixedPrices.map ProductAmount.code ∧
    (countFor "Foo" (coalesce mixedPrices) ≤ 1 ∧
      sumFor "Foo" (coalesce mixedPrices) = sumFor "Foo" mixedPrices) :=
  ⟨by simp [mixedPrices, fooCheap, fooDear, Product.generate_amount,
      ProductAmount.code],
   coalesce_conservation mixedPrices "Foo"
     (by simp [mixedPrices, fooCheap, fooDear, Product.generate_amount,
       ProductAmount.code])⟩

/-- Claim C8: coalescing is idempotent; applying coalesce to its own
output leaves the multiset of (code, summed-amount) pairs unchanged. -/
theorem coalesce_idempotent (x : List ProductAmount) :
    (↑((coalesce (coalesce x)).map (fun e => (e.code, e.amount)))
        : Multiset (String × ℚ))
      = ↑((coalesce x).map (fun e => (e.code, e.amount))) := by
  rw [coalesce_eq_reverse_of_nodup (coalesce x) (coalesce_nodupCodes x),
    List.map_reverse]
  exact Multiset.coe_eq_coe.mpr (List.reverse_perm _)

/-- Claim C9 (amended): the coalescer processes its input from the end
toward the start, and the surviving entry for a code retains the product
instance (hence the captured price) of the FIRST-processed occurrence,
which is the occurrence nearest the END of the input — not, as the claim
states, the one nearest the start. -/
theorem coalesce_surviving_product (x : List ProductAmount) (c : String) :
    survivingProduct (coalesce x) c = survivingProduct x.reverse c := by
  unfold coalesce
  rw [groupGo_surviving]
  rfl

/-- Claim C9 counterexample: for the input [Foo at price 1, Foo at
price 2], the surviving entry carries price 2 (the instance nearest the
end), not price 1 (the instance nearest the start) as the claim
predicts. -/
theorem coalesce_price_counterexample :
    coalesce mixedPrices = [fooDear.generate_amount 2] ∧
    coalesce mixedPrices ≠ [fooCheap.generate_amount 2] := by
  have h : coalesce mixedPrices = [fooDear.generate_amount 2] := by
    norm_num [coalesce, mixedPrices, groupGo, groupStep, addToFirstMatch,
      fooCheap, fooDear, Product.generate_amount, ProductAmount.code,
      List.reverse_cons]
  refine ⟨h, ?_⟩
  rw [h]
  intro hcontra
  norm_num [fooDear, fooCheap, Product.generate_amount,
    ProductAmount.mk.injEq, Product.mk.injEq] at hcontra

/-! ## Containment lemmas (claim C3) -/

theorem foldl_contained_false (g : ProductAmount → Bool) :
    ∀ l : List ProductAmount,
    l.foldl (fun ic r => if ic = false then false else g r) false = false := by
  intro l
  induction l with
  | nil => rfl
  | cons r rs ih => simpa using ih

theorem foldl_contained_eq_all (g : ProductAmount → Bool) :
    ∀ l : List ProductAmount,
    l.foldl (fun ic r => if ic = false then false else g r) true = l.all g := by
  intro l
  induction l with
  | nil => rfl
  | cons r rs ih =>
    rw [List.foldl_cons, List.all_cons]
    have hstep : (if (true : Bool) = false then false else g r) = g r := rfl
    rw [hstep]
    cases hg : g r
    · rw [Bool.false_and]
      exact foldl_contained_false g rs
    · rw [Bool.true_and]
      exact ih

theorem is_contained_by_eq_all (promo : Promotion)
    (pool : List ProductAmount) :
    promo.is_contained_by pool
      = promo.products.all (fun r =>
          match firstMatch pool r.code with
          | some e => decide (r.amount ≤ e.amount)
          | none => false) :=
  foldl_contained_eq_all _ promo.products

/-- Claim C3 (amended): over pools whose entries carry pairwise distinct
product codes (as the coalescer produces, and as the source doc comment
of is_contained_by assumes), containment holds iff every requirement has
a pool entry of the same code with at least the required amount; a
promotion without requirements is satisfied by every pool, and a
requirement whose code is absent from the pool makes the check false.
Over pools with repeated codes only the first entry of a code is
consulted, and the unrestricted claim fails (see the counterexample). -/
theorem is_contained_by_spec (promo : Promotion) (pool : List ProductAmount)
    (hnd : nodupCodes pool) :
    (promo.is_contained_by pool = true ↔
      ∀ r ∈ promo.products, ∃ e ∈ pool, e.code = r.code ∧ r.amount ≤ e.amount) ∧
    (promo.products = [] → promo.is_contained_by pool = true) ∧
    ((∃ r ∈ promo.products, ∀ e ∈ pool, e.code ≠ r.code) →
      promo.is_contained_by pool = false) := by
  have hmain : promo.is_contained_by pool = true ↔
      ∀ r ∈ promo.products, ∃ e ∈ pool, e.code = r.code ∧ r.amount ≤ e.amount := by
    rw [is_contained_by_eq_all, List.all_eq_true]
    constructor
    · intro h r hr
      have hstep := h r hr
      cases hm : firstMatch pool r.code with
      | none => rw [hm] at hstep; simp at hstep
      | some e =>
        rw [hm] at hstep
        rcases firstMatch_some pool r.code e hm with ⟨hmem, hcode⟩
        exact ⟨e, hmem, hcode, of_decide_eq_true hstep⟩
    · intro h r hr
      rcases h r hr with ⟨e, hmem, hcode, hle⟩
      rw [firstMatch_of_mem_nodup pool r.code e hnd hmem hcode]
      exact decide_eq_true hle
  refine ⟨hmain, ?_, ?_⟩
  · intro h
    rw [Promotion.is_contained_by, h]
    rfl
  · rintro ⟨r, hr, habs⟩
    have hnot : ¬ promo.is_contained_by pool = true := by
      rw [hmain]
      intro hall
      rcases hall r hr with ⟨e, hmem, hcode, _⟩
      exact habs e hmem hcode
    cases hb : promo.is_contained_by pool
    · rfl
    · exact absurd hb hnot

/-- Witness for C3 (amended) at the promotion requiring A:4 and the
singleton pool A:5. -/
theorem is_contained_by_spec_witness :
    nodupCodes poolA5 ∧
    ((promoA4.is_contained_by poolA5 = true ↔
      ∀ r ∈ promoA4.products, ∃ e ∈ poolA5,
        e.code = r.code ∧ r.amount ≤ e.amount) ∧
    (promoA4.products = [] → promoA4.is_contained_by poolA5 = true) ∧
    ((∃ r ∈ promoA4.products, ∀ e ∈ poolA5, e.code ≠ r.code) →
      promoA4.is_contained_by poolA5 = false)) :=
  ⟨by simp [nodupCodes, poolA5, prodA, Product.generate_amount,
      ProductAmount.code],
   is_contained_by_spec promoA4 poolA5
     (by simp [nodupCodes, poolA5, prodA, Product.generate_amount,
       ProductAmount.code])⟩

/-- Claim C3 counterexample: for the promotion requiring A:4 and the
duplicated-code pool [A:1, A:5], the pool CONTAINS an entry of code A
with amount at least 4, yet is_contained_by returns false, because only
the first entry with the code is consulted. -/
theorem is_contained_by_counterexample :
    promoA4.is_contained_by dupPool = false ∧
    (∀ r ∈ promoA4.products, ∃ e ∈ dupPool,
      e.code = r.code ∧ r.amount ≤ e.amount) := by
  have hprod : promoA4.products = [prodA.generate_amount 4] := by
    norm_num [promoA4, Promotion.new, coalesce, groupGo, groupStep,
      addToFirstMatch, List.reverse_cons]
  constructor
  · norm_num [Promotion.is_contained_by, hprod, dupPool, firstMatch,
      prodA, Product.generate_amount, ProductAmount.code]
  · intro r hr
    rw [hprod] at hr
    rcases List.mem_singleton.mp hr with rfl
    refine ⟨prodA.generate_amount 5, by simp [dupPool], rfl, by
      norm_num [prodA, Product.generate_amount]⟩

/-! ## Consumption lemmas (claims C2 and C10) -/

theorem decFirst_of_absent (req : ProductAmount)
    (pool : List ProductAmount) (h : firstMatch pool req.code = none) :
    decFirst req pool = .error .ProductNotFound := by
  induction pool with
  | nil => rfl
  | cons e rest ih =>
    rw [firstMatch] at h
    by_cases hc : e.code = req.code
    · rw [if_pos hc] at h; cases h
    · rw [if_neg hc] at h
      rw [decFirst, if_neg hc, ih h]

theorem decFirst_of_insufficient (req : ProductAmount)
    (pool : List ProductAmount) (e : ProductAmount)
    (h : firstMatch pool req.code = some e) (hlt : e.amount < req.amount) :
    decFirst req pool = .error .NotEnoughItems := by
  induction pool with
  | nil => cases h
  | cons e2 rest ih =>
    rw [firstMatch] at h
    by_cases hc : e2.code = req.code
    · rw [if_pos hc] at h
      cases h
      rw [decFirst, if_pos hc, ProductAmount.dec_amount, if_pos hlt]
    · rw [if_neg hc] at h
      rw [decFirst, if_neg hc, ih h]

theorem decFirst_of_sufficient (req : ProductAmount)
    (pool : List ProductAmount) (e : ProductAmount)
    (h : firstMatch pool req.code = some e) (hle : req.amount ≤ e.amount) :
    decFirst req pool = .ok (subFirst pool req.code req.amount) := by
  induction pool with
  | nil => cases h
  | cons e2 rest ih =>
    rw [firstMatch] at h
    by_cases hc : e2.code = req.code
    · rw [if_pos hc] at h
      cases h
      rw [decFirst, if_pos hc, ProductAmount.dec_amount,
        if_neg (not_lt.mpr hle), subFirst, if_pos hc]
    · rw [if_neg hc] at h
      rw [decFirst, if_neg hc, ih h, subFirst, if_neg hc]

theorem subFirst_firstMatch_of_ne (pool : List ProductAmount)
    (c c2 : String) (a : ℚ) (hne : c2 ≠ c) :
    firstMatch (subFirst pool c a) c2 = firstMatch pool c2 := by
  induction pool with
  | nil => rfl
  | cons e rest ih =>
    by_cases hc : e.code = c
    · rw [subFirst, if_pos hc, firstMatch, firstMatch]
      have hnc2 : ¬ e.code = c2 := fun hh => hne (hh ▸ hc)
      rw [if_neg (show ¬ (ProductAmount.mk e.product (e.amount - a)).code = c2
          from hnc2), if_neg hnc2]
    · rw [subFirst, if_neg hc, firstMatch, firstMatch]
      by_cases h2 : e.code = c2
      · rw [if_pos h2, if_pos h2]
      · rw [if_neg h2, if_neg h2, ih]

theorem subFirst_nonneg (pool : List ProductAmount) (c : String) (a : ℚ)
    (e0 : ProductAmount) (hpos : ∀ e ∈ pool, 0 ≤ e.amount)
    (h : firstMatch pool c = some e0) (hle : a ≤ e0.amount) :
    ∀ e ∈ subFirst pool c a, 0 ≤ e.amount := by
  induction pool with
  | nil => intro e he; cases he
  | cons e2 rest ih =>
    rw [firstMatch] at h
    by_cases hc : e2.code = c
    · rw [if_pos hc] at h
      cases h
      rw [subFirst, if_pos hc]
      intro e he
      rcases List.mem_cons.mp he with rfl | hmem
      · simpa using sub_nonneg.mpr hle
      · exact hpos e (List.mem_cons_of_mem _ hmem)
    · rw [if_neg hc] at h
      rw [subFirst, if_neg hc]
      intro e he
      rcases List.mem_cons.mp he with rfl | hmem
      · exact hpos e (List.mem_cons_self _ _)
      · exact ih (fun e3 he3 => hpos e3 (List.mem_cons_of_mem _ he3)) h e hmem

@[simp]
theorem subAll_nil (pool : List ProductAmount) : subAll [] pool = pool := rfl

theorem subAll_cons (r : ProductAmount) (rs : List ProductAmount)
    (pool : List ProductAmount) :
    subAll (r :: rs) pool = subAll rs (subFirst pool r.code r.amount) := rfl

theorem consumeItemsLoop_ok :
    ∀ (reqs pool : List ProductAmount), nodupCodes reqs →
    (∀ e ∈ pool, 0 ≤ e.amount) →
    (∀ r ∈ reqs, ∃ e, firstMatch pool r.code = some e ∧ r.amount ≤ e.amount) →
    consumeItemsLoop reqs pool = .ok (subAll reqs pool) ∧
      (∀ e ∈ subAll reqs pool, 0 ≤ e.amount) := by
  intro reqs
  induction reqs with
  | nil => intro pool _ hpos _; exact ⟨rfl, hpos⟩
  | cons r rs ih =>
    intro pool hnd hpos hsat
    rcases nodupCodes_cons r rs hnd with ⟨hout, hnd2⟩
    rcases hsat r (List.mem_cons_self _ _) with ⟨e0, hfm, hle⟩
    have hstep := decFirst_of_sufficient r pool e0 hfm hle
    have hpos2 : ∀ e ∈ subFirst pool r.code r.amount, 0 ≤ e.amount :=
      subFirst_nonneg pool r.code r.amount e0 hpos hfm hle
    have hsat2 : ∀ r2 ∈ rs, ∃ e,
        firstMatch (subFirst pool r.code r.amount) r2.code = some e ∧
          r2.amount ≤ e.amount := by
      intro r2 hr2
      rcases hsat r2 (List.mem_cons_of_mem _ hr2) with ⟨e, hm, hlee⟩
      exact ⟨e, by rw [subFirst_firstMatch_of_ne pool r.code r2.code r.amount
        (hout r2 hr2)]; exact hm, hlee⟩
    rcases ih (subFirst pool r.code r.amount) hnd2 hpos2 hsat2 with ⟨hloop, hp⟩
    refine ⟨?_, ?_⟩
    · rw [consumeItemsLoop, hstep]
      show consumeItemsLoop rs (subFirst pool r.code r.amount) = _
      rw [hloop, subAll_cons]
    · rw [subAll_cons]
      exact hp

theorem consumeItemsLoop_absent :
    ∀ (reqs pool : List ProductAmount), nodupCodes reqs →
    (∃ r ∈ reqs, firstMatch pool r.code = none) →
    (∀ r ∈ reqs, ∀ e, firstMatch pool r.code = some e → r.amount ≤ e.amount) →
    consumeItemsLoop reqs pool = .error .ProductNotFound := by
  intro reqs
  induction reqs with
  | nil => intro pool _ hex _; rcases hex with ⟨r, hr, _⟩; cases hr
  | cons r rs ih =>
    intro pool hnd hex hok
    rcases nodupCodes_cons r rs hnd with ⟨hout, hnd2⟩
    cases hfm : firstMatch pool r.code with
    | none =>
      rw [consumeItemsLoop, decFirst_of_absent r pool hfm]
    | some e =>
      have hle := hok r (List.mem_cons_self _ _) e hfm
      rw [consumeItemsLoop, decFirst_of_sufficient r pool e hfm hle]
      rcases hex with ⟨r0, hr0, h0⟩
      have hr0rs : r0 ∈ rs := by
        rcases List.mem_cons.mp hr0 with rfl | hmem
        · rw [hfm] at h0; cases h0
        · exact hmem
      apply ih (subFirst pool r.code r.amount) hnd2
      · refine ⟨r0, hr0rs, ?_⟩
        rw [subFirst_firstMatch_of_ne pool r.code r0.code r.amount
          (hout r0 hr0rs)]
        exact h0
      · intro r2 hr2 e2 he2
        rw [subFirst_firstMatch_of_ne pool r.code r2.code r.amount
          (hout r2 hr2)] at he2
        exact hok r2 (List.mem_cons_of_mem _ hr2) e2 he2

theorem consumeItemsLoop_insufficient :
    ∀ (reqs pool : List ProductAmount), nodupCodes reqs →
    (∀ r ∈ reqs, (firstMatch pool r.code).isSome) →
    (∃ r ∈ reqs, ∃ e, firstMatch pool r.code = some e ∧ e.amount < r.amount) →
    consumeItemsLoop reqs pool = .error .NotEnoughItems := by
  intro reqs
  induction reqs with
  | nil => intro pool _ _ hex; rcases hex with ⟨r, hr, _⟩; cases hr
  | cons r rs ih =>
    intro pool hnd hpres hex
    rcases nodupCodes_cons r rs hnd with ⟨hout, hnd2⟩
    rcases Option.isSome_iff_exists.mp (hpres r (List.mem_cons_self _ _))
      with ⟨e, hfm⟩
    by_cases hx : e.amount < r.amount
    · rw [consumeItemsLoop, decFirst_of_insufficient r pool e hfm hx]
    · have hle : r.amount ≤ e.amount := not_lt.mp hx
      rw [consumeItemsLoop, decFirst_of_sufficient r pool e hfm hle]
      rcases hex with ⟨r0, hr0, e0, h0, hlt0⟩
      have hr0rs : r0 ∈ rs := by
        rcases List.mem_cons.mp hr0 with rfl | hmem
        · rw [hfm] at h0
          cases h0
          exact absurd hlt0 hx
        · exact hmem
      apply ih (subFirst pool r.code r.amount) hnd2
      · intro r2 hr2
        rw [subFirst_firstMatch_of_ne pool r.code r2.code r.amount
          (hout r2 hr2)]
        exact hpres r2 (List.mem_cons_of_mem _ hr2)
      · refine ⟨r0, hr0rs, e0, ?_, hlt0⟩
        rw [subFirst_firstMatch_of_ne pool r.code r0.code r.amount
          (hout r0 hr0rs)]
        exact h0

theorem filter_pos_eq_filter_ne_zero (l : List ProductAmount)
    (h : ∀ e ∈ l, 0 ≤ e.amount) :
    l.filter (fun e => decide (0 < e.amount))
      = l.filter (fun e => decide (¬ e.amount = 0)) := by
  induction l with
  | nil => rfl
  | cons e rest ih =>
    have he := h e (List.mem_cons_self _ _)
    have hrest := ih (fun e2 he2 => h e2 (List.mem_cons_of_mem _ he2))
    rcases lt_or_eq_of_le he with hpos | hzero
    · rw [List.filter_cons_of_pos (by exact decide_eq_true hpos),
        List.filter_cons_of_pos (by exact decide_eq_true (ne_of_gt hpos)),
        hrest]
    · rw [List.filter_cons_of_neg (by simp [← hzero]),
        List.filter_cons_of_neg (by simp [← hzero]), hrest]

/-- Claim C2: behaviour of consume_items.  For a promotion with
canonical (pairwise-distinct-code) requirements, over a pool of
non-negative amounts (the data-model range): if some requirement code is
absent from the pool and every present requirement is coverable, consume
fails with ProductNotFound; if every requirement code is present and
some required amount exceeds the first matching entry, consume fails
with NotEnoughItems; and if every requirement is covered, consume
succeeds with every requirement subtracted from its matching entry,
entries left at amount exactly zero removed and all other entries
unchanged in relative order.  The Lean embedding is a pure function, so
the input pool is never mutated. -/
theorem consume_items_spec (promo : Promotion) (pool : List ProductAmount)
    (hnd : nodupCodes promo.products)
    (hpos : ∀ e ∈ pool, 0 ≤ e.amount) :
    ((∃ r ∈ promo.products, firstMatch pool r.code = none) ∧
        (∀ r ∈ promo.products, ∀ e, firstMatch pool r.code = some e →
          r.amount ≤ e.amount) →
      promo.consume_items pool = .error .ProductNotFound) ∧
    ((∀ r ∈ promo.products, (firstMatch pool r.code).isSome) ∧
        (∃ r ∈ promo.products, ∃ e, firstMatch pool r.code = some e ∧
          e.amount < r.amount) →
      promo.consume_items pool = .error .NotEnoughItems) ∧
    ((∀ r ∈ promo.products, ∃ e, firstMatch pool r.code = some e ∧
        r.amount ≤ e.amount) →
      promo.consume_items pool
        = .ok ((subAll promo.products pool).filter
            (fun e => decide (¬ e.amount = 0)))) := by
  refine ⟨?_, ?_, ?_⟩
  · rintro ⟨hex, hok⟩
    rw [Promotion.consume_items,
      consumeItemsLoop_absent promo.products pool hnd hex hok]
  · rintro ⟨hpres, hex⟩
    rw [Promotion.consume_items,
      consumeItemsLoop_insufficient promo.products pool hnd hpres hex]
  · intro hsat
    rcases consumeItemsLoop_ok promo.products pool hnd hpos hsat
      with ⟨hloop, hp⟩
    rw [Promotion.consume_items, hloop]
    show Except.ok ((subAll promo.products pool).filter
      (fun p => decide (0 < p.amount))) = _
    rw [filter_pos_eq_filter_ne_zero _ hp]

/-- Witness for C2: the promotion requiring A:4 against the pool A:5
succeeds and leaves A:1 (the concrete instance named by the claim). -/
theorem consume_items_spec_witness :
    nodupCodes promoA4.products ∧ (∀ e ∈ poolA5, 0 ≤ e.amount) ∧
    (∀ r ∈ promoA4.products, ∃ e, firstMatch poolA5 r.code = some e ∧
      r.amount ≤ e.amount) ∧
    promoA4.consume_items poolA5 = .ok [prodA.generate_amount 1] := by
  have hprod : promoA4.products = [prodA.generate_amount 4] := by
    norm_num [promoA4, Promotion.new, coalesce, groupGo, groupStep,
      addToFirstMatch, List.reverse_cons]
  have h1 : nodupCodes promoA4.products := by
    simp [hprod, nodupCodes]
  have h2 : ∀ e ∈ poolA5, 0 ≤ e.amount := by
    intro e he
    simp only [poolA5, List.mem_singleton] at he
    subst he
    norm_num [prodA, Product.generate_amount]
  have h3 : ∀ r ∈ promoA4.products, ∃ e, firstMatch poolA5 r.code = some e ∧
      r.amount ≤ e.amount := by
    intro r hr
    rw [hprod] at hr
    rcases List.mem_singleton.mp hr with rfl
    refine ⟨prodA.generate_amount 5, ?_, by norm_num [prodA,
      Product.generate_amount]⟩
    simp [poolA5, firstMatch, prodA, Product.generate_amount,
      ProductAmount.code]
  refine ⟨h1, h2, h3, ?_⟩
  rw [(consume_items_spec promoA4 poolA5 h1 h2).2.2 h3]
  norm_num [hprod, poolA5, subAll, subFirst, List.filter, prodA,
    Product.generate_amount, ProductAmount.code]

/-- Claim C10: every entry of a successfully consumed pool has strictly
positive amount; entries at zero or below — including untouched input
entries that started non-positive — never appear in the result. -/
theorem consume_items_positive (promo : Promotion)
    (pool result : List ProductAmount)
    (h : promo.consume_items pool = .ok result) :
    ∀ e ∈ result, 0 < e.amount := by
  rw [Promotion.consume_items] at h
  cases hl : consumeItemsLoop promo.products pool with
  | error err => rw [hl] at h; cases h
  | ok pool2 =>
    rw [hl] at h
    cases h
    intro e he
    exact of_decide_eq_true ((List.mem_filter.mp he).2)

/-- Witness for C10: consuming A:1 from the pool [A:2, E:0] succeeds
with result [A:1]; the untouched zero-amount entry E:0 is gone and every
remaining entry is strictly positive. -/
theorem consume_items_positive_witness :
    promoA1.consume_items zeroPool = .ok [prodA.generate_amount 1] ∧
    (∀ e ∈ [prodA.generate_amount 1], 0 < e.amount) := by
  have h : promoA1.consume_items zeroPool = .ok [prodA.generate_amount 1] := by
    norm_num [promoA1, Promotion.new, coalesce, groupGo, groupStep,
      addToFirstMatch, List.reverse_cons, Promotion.consume_items,
      consumeItemsLoop, decFirst, ProductAmount.dec_amount, zeroPool,
      List.filter, prodA, Product.generate_amount, ProductAmount.code]
  exact ⟨h, consume_items_positive promoA1 zeroPool _ h⟩

/-! ## Optimizer candidate (claim C5) -/

/-- Claim C5: every candidate built by the constructor satisfies the
derived-price invariant (price equals the sum of the promotion prices
plus the sum of quantity times unit price over the remaining entries);
simulate_promotion — the only state transition, a pure function that
builds a fresh candidate and leaves the receiver untouched — yields
a candidate satisfying the invariant, with the promotion appended, and
fails with exactly the error of consume when the requirements are not
met. -/
theorem optimizer_candidate_invariant :
    (∀ (promos : List Promotion) (prods : List ProductAmount),
      (OptimizerCandidate.new promos prods).priceInvariant) ∧
    (∀ (c c2 : OptimizerCandidate) (p : Promotion),
      c.simulate_promotion p = .ok c2 →
      c2.priceInvariant ∧ c2.promotions = c.promotions ++ [p]) ∧
    (∀ (c : OptimizerCandidate) (p : Promotion) (err : ErrorVariant),
      c.simulate_promotion p = .error err ↔
        p.consume_items c.products = .error err) := by
  refine ⟨?_, ?_, ?_⟩
  · intro promos prods
    rfl
  · intro c c2 p h
    rw [OptimizerCandidate.simulate_promotion] at h
    cases hc : p.consume_items c.products with
    | error err => rw [hc] at h; cases h
    | ok prods =>
      rw [hc] at h
      cases h
      exact ⟨rfl, rfl⟩
  · intro c p err
    cases hc : p.consume_items c.products with
    | error e2 =>
      have hsim : c.simulate_promotion p = .error e2 := by
        rw [OptimizerCandidate.simulate_promotion, hc]
      rw [hsim]
      simp
    | ok prods =>
      have hsim : c.simulate_promotion p
          = .ok (OptimizerCandidate.new (c.promotions ++ [p]) prods) := by
        rw [OptimizerCandidate.simulate_promotion, hc]
      rw [hsim]
      simp

/-- Witness for C5: simulating goodPromo from the candidate over the
pool A:4 succeeds, and the resulting candidate satisfies the
derived-price invariant. -/
theorem optimizer_candidate_invariant_witness :
    dropCand.simulate_promotion goodPromo
        = .ok (OptimizerCandidate.new [goodPromo] []) ∧
    (OptimizerCandidate.new [goodPromo] []).priceInvariant := by
  have h : dropCand.simulate_promotion goodPromo
      = .ok (OptimizerCandidate.new [goodPromo] []) := by
    norm_num [dropCand, goodPromo, Promotion.new, coalesce, groupGo,
      groupStep, addToFirstMatch, List.reverse_cons, OptimizerCandidate.new,
      OptimizerCandidate.simulate_promotion, Promotion.consume_items,
      consumeItemsLoop, decFirst, ProductAmount.dec_amount, prodA,
      Product.generate_amount, ProductAmount.code, List.filter,
      candidatePrice, ProductAmount.get_total_price]
  exact ⟨h, (optimizer_candidate_invariant.2.1 dropCand
    (OptimizerCandidate.new [goodPromo] []) goodPromo h).1⟩

/-! ## Optimizer search lemmas (claims C1, C6, C7) -/

theorem optLoop_succ (fuel : ℕ) (db : List Promotion)
    (cand : OptimizerCandidate) :
    optLoop (fuel + 1) db cand
      = if fetchPossible db cand.products cand.price = [] then
          some (.ok (cand.products, cand.promotions))
        else
          optLoop fuel db
            (runRound (fetchPossible db cand.products cand.price) cand) := rfl

theorem runRound_no_improvement :
    ∀ (possible : List Promotion) (cand : OptimizerCandidate),
    (∀ p ∈ possible, ∀ c2, cand.simulate_promotion p = .ok c2 →
      ¬ c2.price < cand.price) →
    runRound possible cand = cand := by
  intro possible
  induction possible with
  | nil => intro cand _; rfl
  | cons p ps ih =>
    intro cand h
    simp only [runRound, List.foldl_cons]
    cases hs : cand.simulate_promotion p with
    | error e =>
      simp only [hs]
      exact ih cand (fun p2 hp2 => h p2 (List.mem_cons_of_mem _ hp2))
    | ok c2 =>
      simp only [hs]
      rw [if_neg (h p (List.mem_cons_self _ _) c2 hs)]
      exact ih cand (fun p2 hp2 => h p2 (List.mem_cons_of_mem _ hp2))

theorem optLoop_stuck :
    ∀ (fuel : ℕ) (db : List Promotion) (cand : OptimizerCandidate),
    fetchPossible db cand.products cand.price ≠ [] →
    runRound (fetchPossible db cand.products cand.price) cand = cand →
    optLoop fuel db cand = none := by
  intro fuel
  induction fuel with
  | zero => intro db cand _ _; rfl
  | succ n ih =>
    intro db cand hne hfix
    rw [optLoop_succ, if_neg hne, hfix]
    exact ih db cand hne hfix

/-- Claim C6: whenever a round fetches a non-empty promotion set but no
simulated candidate is strictly cheaper than the current best, the best
never changes, the same set is re-fetched and the search recurses
forever (the fueled model returns none at every fuel); the concrete
store [P: one A for 1.5] with pool A:2 realizes this situation; and
conversely, when the fetched set is empty the search terminates at once,
returning the remaining products and chosen promotions of the current
best candidate. -/
theorem optimizer_nontermination :
    (∀ (db : List Promotion) (cand : OptimizerCandidate),
      fetchPossible db cand.products cand.price ≠ [] →
      (∀ p ∈ fetchPossible db cand.products cand.price, ∀ c2,
        cand.simulate_promotion p = .ok c2 → ¬ c2.price < cand.price) →
      ∀ fuel, optLoop fuel db cand = none) ∧
    (fetchPossible loopDb loopCand.products loopCand.price = [loopPromo] ∧
      (∀ c2, loopCand.simulate_promotion loopPromo = .ok c2 →
        ¬ c2.price < loopCand.price) ∧
      ∀ fuel, optLoop fuel loopDb loopCand = none) ∧
    (∀ (db : List Promotion) (cand : OptimizerCandidate) (fuel : ℕ),
      fetchPossible db cand.products cand.price = [] →
      optLoop (fuel + 1) db cand
        = some (.ok (cand.products, cand.promotions))) := by
  have hgen : ∀ (db : List Promotion) (cand : OptimizerCandidate),
      fetchPossible db cand.products cand.price ≠ [] →
      (∀ p ∈ fetchPossible db cand.products cand.price, ∀ c2,
        cand.simulate_promotion p = .ok c2 → ¬ c2.price < cand.price) →
      ∀ fuel, optLoop fuel db cand = none :=
    fun db cand hne hnoimp fuel =>
      optLoop_stuck fuel db cand hne
        (runRound_no_improvement _ cand hnoimp)
  have h1 : fetchPossible loopDb loopCand.products loopCand.price
      = [loopPromo] := by
    norm_num [fetchPossible, loopDb, loopCand, loopPromo, loopProduct,
      Promotion.new, coalesce, groupGo, groupStep, addToFirstMatch,
      List.reverse_cons, OptimizerCandidate.new, candidatePrice,
      ProductAmount.get_total_price, Promotion.is_contained_by, firstMatch,
      Product.generate_amount, ProductAmount.code, ProductAmount.price,
      List.filter]
  have hs : loopCand.simulate_promotion loopPromo
      = .ok (OptimizerCandidate.new [loopPromo]
          [loopProduct.generate_amount 1]) := by
    norm_num [loopCand, loopPromo, loopProduct, Promotion.new, coalesce,
      groupGo, groupStep, addToFirstMatch, List.reverse_cons,
      OptimizerCandidate.new, OptimizerCandidate.simulate_promotion,
      Promotion.consume_items, consumeItemsLoop, decFirst,
      ProductAmount.dec_amount, Product.generate_amount,
      ProductAmount.code, List.filter, candidatePrice,
      ProductAmount.get_total_price]
  have h2 : ∀ c2, loopCand.simulate_promotion loopPromo = .ok c2 →
      ¬ c2.price < loopCand.price := by
    intro c2 hc2
    rw [hs] at hc2
    cases hc2
    norm_num [loopCand, loopPromo, loopProduct, Promotion.new, coalesce,
      groupGo, groupStep, addToFirstMatch, List.reverse_cons,
      OptimizerCandidate.new, candidatePrice, Product.generate_amount,
      ProductAmount.get_total_price, ProductAmount.price]
  refine ⟨hgen, ⟨h1, h2, ?_⟩, ?_⟩
  · intro fuel
    refine hgen loopDb loopCand (by rw [h1]; simp) ?_ fuel
    rw [h1]
    intro p hp
    rcases List.mem_singleton.mp hp with rfl
    exact h2
  · intro db cand fuel hq
    rw [optLoop_succ, if_pos hq]

/-- Witness for C6: applied to the empty store, the termination clause
returns the initial candidate unchanged at one unit of fuel. -/
theorem optimizer_nontermination_witness :
    fetchPossible [] (OptimizerCandidate.new [] []).products
        (OptimizerCandidate.new [] []).price = [] ∧
    optLoop 1 [] (OptimizerCandidate.new [] [])
      = some (.ok ((OptimizerCandidate.new [] []).products,
          (OptimizerCandidate.new [] []).promotions)) :=
  ⟨rfl, optimizer_nontermination.2.2 [] (OptimizerCandidate.new [] []) 0 rfl⟩

/-- Claim C7 counterexample: with the store [PB, PG] over the pool A:4,
where PB (a promotion with a duplicated requirement code, as from_json
can store) passes the price-and-containment query yet its simulation
fails with NotEnoughItems, the optimizer returns a plain success: the
consume failure raised during the round is silently dropped, never
propagated to the caller. -/
theorem optimizer_drops_consume_failure :
    dropCand.simulate_promotion dupPromo = .error .NotEnoughItems ∧
    dupPromo ∈ fetchPossible dropDb dropCand.products dropCand.price ∧
    optLoop 2 dropDb dropCand = some (.ok ([], [goodPromo])) := by
  have hsim : dropCand.simulate_promotion dupPromo
      = .error .NotEnoughItems := by
    norm_num [dropCand, dupPromo, OptimizerCandidate.new,
      OptimizerCandidate.simulate_promotion, Promotion.consume_items,
      consumeItemsLoop, decFirst, ProductAmount.dec_amount, prodA,
      Product.generate_amount, ProductAmount.code, candidatePrice,
      ProductAmount.get_total_price]
  have h1 : fetchPossible dropDb dropCand.products dropCand.price
      = [dupPromo, goodPromo] := by
    norm_num [fetchPossible, dropDb, dropCand, dupPromo, goodPromo,
      Promotion.new, coalesce, groupGo, groupStep, addToFirstMatch,
      List.reverse_cons, OptimizerCandidate.new, candidatePrice,
      ProductAmount.get_total_price, Promotion.is_contained_by, firstMatch,
      prodA, Product.generate_amount, ProductAmount.code,
      ProductAmount.price, List.filter]
  have hsimG : dropCand.simulate_promotion goodPromo
      = .ok (OptimizerCandidate.new [goodPromo] []) := by
    norm_num [dropCand, goodPromo, Promotion.new, coalesce, groupGo,
      groupStep, addToFirstMatch, List.reverse_cons, OptimizerCandidate.new,
      OptimizerCandidate.simulate_promotion, Promotion.consume_items,
      consumeItemsLoop, decFirst, ProductAmount.dec_amount, prodA,
      Product.generate_amount, ProductAmount.code, List.filter,
      candidatePrice, ProductAmount.get_total_price]
  have hlt : (OptimizerCandidate.new [goodPromo] []).price
      < dropCand.price := by
    norm_num [dropCand, goodPromo, Promotion.new, coalesce, groupGo,
      groupStep, addToFirstMatch, List.reverse_cons, OptimizerCandidate.new,
      candidatePrice, prodA, Product.generate_amount,
      ProductAmount.get_total_price, ProductAmount.price]
  have h2 : runRound [dupPromo, goodPromo] dropCand
      = OptimizerCandidate.new [goodPromo] [] := by
    simp only [runRound, List.foldl_cons, List.foldl_nil, hsim, hsimG]
    rw [if_pos hlt]
  refine ⟨hsim, by rw [h1]; simp, ?_⟩
  show optLoop ((1 : ℕ) + 1) dropDb dropCand = _
  rw [optLoop_succ, h1, if_neg (by simp), h2]
  show optLoop ((0 : ℕ) + 1) dropDb (OptimizerCandidate.new [goodPromo] []) = _
  rw [optLoop_succ]
  have h3 : fetchPossible dropDb (OptimizerCandidate.new [goodPromo] []).products
      (OptimizerCandidate.new [goodPromo] []).price = [] := by
    norm_num [fetchPossible, dropDb, dupPromo, goodPromo, Promotion.new,
      coalesce, groupGo, groupStep, addToFirstMatch, List.reverse_cons,
      OptimizerCandidate.new, candidatePrice, ProductAmount.get_total_price,
      Promotion.is_contained_by, firstMatch, prodA, Product.generate_amount,
      ProductAmount.code, ProductAmount.price, List.filter]
  rw [h3, if_pos rfl]
  rfl

/-- Claim C7 (amended): consume failures raised by simulate during a
round are discarded and the round continues with the remaining fetched
promotions; whenever the fueled search terminates it returns a
successful result — never a consume error.  (The only propagated store
failure in the source is lock poisoning, outside this pure model.) -/
theorem optimizer_run_never_errors :
    ∀ (fuel : ℕ) (db : List Promotion) (cand : OptimizerCandidate)
      (r : Except ErrorVariant (List ProductAmount × List Promotion)),
    optLoop fuel db cand = some r →
    ∃ products promotions, r = .ok (products, promotions) := by
  intro fuel
  induction fuel with
  | zero => intro db cand r h; cases h
  | succ n ih =>
    intro db cand r h
    rw [optLoop_succ] at h
    by_cases hq : fetchPossible db cand.products cand.price = []
    · rw [if_pos hq] at h
      cases h
      exact ⟨cand.products, cand.promotions, rfl⟩
    · rw [if_neg hq] at h
      exact ih db _ r h

/-- Witness for C7 (amended), at the empty store. -/
theorem optimizer_run_never_errors_witness :
    optLoop 1 [] (OptimizerCandidate.new [] []) = some (.ok ([], [])) ∧
    ∃ products promotions,
      (Except.ok ([], []) :
          Except ErrorVariant (List ProductAmount × List Promotion))
        = .ok (products, promotions) := by
  have h : optLoop 1 [] (OptimizerCandidate.new [] [])
      = some (.ok ([], [])) := rfl
  exact ⟨h, optimizer_run_never_errors 1 [] (OptimizerCandidate.new [] [])
    (.ok ([], [])) h⟩

/-- Claim C1: on the literal catalog (A=2.0, B=12.0, C=1.25, D=0.15,
PA = A:4 for 7.0, PC = C:6 for 6.0), the optimizer over the coalesced
pool A:4, B:2, C:1, D:1 returns the promotions [PA] and the remainder
B:2, C:1, D:1, of derived total 32.4 = 162/5, and over the pool with one
of each product it returns the pool unchanged with no promotions, of
derived total 15.4 = 77/5 — at every sufficient fuel. -/
theorem optimizer_example (n : ℕ) :
    optimizerRun (n + 2) exampleDb examplePool
        = some (.ok (exampleRemaining, [promoPA])) ∧
    candidatePrice [promoPA] exampleRemaining = 162 / 5 ∧
    optimizerRun (n + 1) exampleDb examplePoolSmall
        = some (.ok (examplePoolSmall, [])) ∧
    candidatePrice [] examplePoolSmall = 77 / 5 := by
  refine ⟨?_, ?_, ?_, ?_⟩
  · show optLoop ((n + 1) + 1) exampleDb
      (OptimizerCandidate.new [] examplePool) = _
    rw [optLoop_succ]
    have h1 : fetchPossible exampleDb
        (OptimizerCandidate.new [] examplePool).products
        (OptimizerCandidate.new [] examplePool).price = [promoPA] := by
      simp [fetchPossible, exampleDb, examplePool, promoPA, promoPC,
        prodA, prodB, prodC, prodD, Promotion.new, coalesce, groupGo,
        groupStep, addToFirstMatch, List.reverse_cons,
        OptimizerCandidate.new, candidatePrice,
        ProductAmount.get_total_price, Promotion.is_contained_by,
        firstMatch, Product.generate_amount, ProductAmount.code,
        ProductAmount.price, List.filter]
      norm_num
    rw [h1, if_neg (by simp)]
    have hsimPA : (OptimizerCandidate.new [] examplePool).simulate_promotion
          promoPA
        = .ok (OptimizerCandidate.new [promoPA] exampleRemaining) := by
      simp [examplePool, exampleRemaining, promoPA, prodA, prodB, prodC,
        prodD, Promotion.new, coalesce, groupGo, groupStep,
        addToFirstMatch, List.reverse_cons, OptimizerCandidate.new,
        OptimizerCandidate.simulate_promotion, Promotion.consume_items,
        consumeItemsLoop, decFirst, ProductAmount.dec_amount,
        Product.generate_amount, ProductAmount.code, ProductAmount.price,
        List.filter, candidatePrice, ProductAmount.get_total_price]
    have hltPA : (OptimizerCandidate.new [promoPA] exampleRemaining).price
        < (OptimizerCandidate.new [] examplePool).price := by
      norm_num [examplePool, exampleRemaining, promoPA, prodA, prodB,
        prodC, prodD, Promotion.new, coalesce, groupGo, groupStep,
        addToFirstMatch, List.reverse_cons, OptimizerCandidate.new,
        candidatePrice, Product.generate_amount,
        ProductAmount.get_total_price, ProductAmount.price]
    have h2 : runRound [promoPA] (OptimizerCandidate.new [] examplePool)
        = OptimizerCandidate.new [promoPA] exampleRemaining := by
      simp only [runRound, List.foldl_cons, List.foldl_nil, hsimPA]
      rw [if_pos hltPA]
    rw [h2]
    show optLoop (n + 1) exampleDb
      (OptimizerCandidate.new [promoPA] exampleRemaining) = _
    rw [optLoop_succ]
    have h3 : fetchPossible exampleDb
        (OptimizerCandidate.new [promoPA] exampleRemaining).products
        (OptimizerCandidate.new [promoPA] exampleRemaining).price = [] := by
      simp [fetchPossible, exampleDb, exampleRemaining, promoPA,
        promoPC, prodA, prodB, prodC, prodD, Promotion.new, coalesce,
        groupGo, groupStep, addToFirstMatch, List.reverse_cons,
        OptimizerCandidate.new, candidatePrice,
        ProductAmount.get_total_price, Promotion.is_contained_by,
        firstMatch, Product.generate_amount, ProductAmount.code,
        ProductAmount.price, List.filter]
    rw [h3, if_pos rfl]
    rfl
  · norm_num [candidatePrice, promoPA, prodA, prodB, prodC, prodD,
      Promotion.new, coalesce, groupGo, groupStep, addToFirstMatch,
      List.reverse_cons, exampleRemaining, Product.generate_amount,
      ProductAmount.get_total_price, ProductAmount.price]
  · show optLoop (n + 1) exampleDb
      (OptimizerCandidate.new [] examplePoolSmall) = _
    rw [optLoop_succ]
    have h4 : fetchPossible exampleDb
        (OptimizerCandidate.new [] examplePoolSmall).products
        (OptimizerCandidate.new [] examplePoolSmall).price = [] := by
      simp [fetchPossible, exampleDb, examplePoolSmall, promoPA,
        promoPC, prodA, prodB, prodC, prodD, Promotion.new, coalesce,
        groupGo, groupStep, addToFirstMatch, List.reverse_cons,
        OptimizerCandidate.new, candidatePrice,
        ProductAmount.get_total_price, Promotion.is_contained_by,
        firstMatch, Product.generate_amount, ProductAmount.code,
        ProductAmount.price, List.filter]
    rw [h4, if_pos rfl]
    rfl
  · norm_num [candidatePrice, examplePoolSmall, prodA, prodB, prodC,
      prodD, Product.generate_amount, ProductAmount.get_total_price,
      ProductAmount.price]

end StoreTerminal
